import Mathlib

/-!
# Verification of the `HDPrivateKey` keyring (`ts_src/hd/private.ts`)

A shallow embedding of the hierarchical-deterministic keyring class
`HDPrivateKey` into Lean.  The class state is captured by `HDState`, the
external cryptographic collaborators (secp256k1 point arithmetic, the BIP32
`hdkey` derivation library, the address encoder of `BaseWallet`, the bitcore
message primitives, `bip39.mnemonicToSeed`) are abstracted into a record of
pure functions `HDEnv`, exactly as the specification prescribes ("this core
treats all of those as pure functions with documented signatures").

Modelling conventions, chosen to mirror the JavaScript semantics:

* Byte buffers (seeds, private keys, public keys) are modelled as `List Nat`
  resp. `Nat`.  Hex encoding/decoding (`bytesToHex`/`hexToBytes`,
  `Buffer.toString("hex")`) is a bijection between buffers and the hex strings
  the code compares, so the embedding works with the decoded values directly;
  the one observable artifact of the string layer — the `?? ""` empty-string
  sentinel fed to `_getPrivateKeyFor` by `signMessage` — is modelled by
  `Option` (`none` = the empty string, which is the only falsy value that can
  arise there, since a real public key always hex-encodes to a non-empty
  string).
* A JavaScript `ECPairInterface` object is created at most once per child
  index per derivation-path lifetime (`_addressFromIndex` caches it), so
  object identity — which is what `Array.prototype.includes` compares — is
  faithfully represented by the pair (creation index, key material): two
  reachable wallet objects are the same JS object iff these agree.  `ECPair`
  below carries that creation index in the field `idx`.
* Thrown `Error`s become `Except HDErr` values; the constructors of `HDErr`
  are named after the distinct `throw` sites of the class.
* `this.hdWallet` (the `hdkey` master node) is a deterministic function of
  `this.seed` and is set exactly when `seed` is set, so it is not stored
  separately: `root = hdWallet.derive(path)` is recorded as the pair
  `(seed, path)` it was derived from, and the child-derivation primitive of
  the environment consumes that pair.
* `Psbt` (from `belcoinjs-lib`) is modelled as the list of its inputs; an
  input records which private keys signed it (`sigs`) and whether it was
  finalized.  `psbt.signInput` with an out-of-range index throws, modelled by
  `HDErr.rangeError`.
-/

/-- Errors thrown by the class, one constructor per distinct `throw` site
(plus the runtime `TypeError` JavaScript raises when a missing value is
dereferenced, e.g. `deriveChild` on an undefined root). -/
inductive HDErr where
  /-- "You should use only root wallet to serializing" -/
  | invalidOperation
  /-- "HDPrivateKey: Account with address ... not founded" -/
  | accountNotFoundByAddress
  /-- "HDPrivateKey: Account with public key ... not founded" -/
  | accountNotFoundByPk
  /-- "Must specify publicKey." (`_getPrivateKeyFor` on the empty string) -/
  | mustSpecifyPublicKey
  /-- "Simple Keyring - Unable to find matching publicKey." -/
  | unableToFindMatchingPublicKey
  /-- "HDPrivateKey: Deserialize method cannot be called with an opts value
  for numberOfAccounts and no seed" -/
  | deserializationError
  /-- "Method not allowed for HDPrivateKey." -/
  | methodNotAllowed
  /-- `belcoinjs-lib`: signing a non-existent input index throws. -/
  | rangeError
  /-- JavaScript `TypeError` (property access on `undefined`). -/
  | typeError
deriving DecidableEq, Repr

/-- An `ECPairInterface` wallet object.  `idx` is the child index the object
was created for by `_addressFromIndex` (object identity, see the header),
`priv`/`pub` the key material (`ECPair.fromPrivateKey` always sets
`pub = pubOf priv`). -/
structure ECPair where
  idx : Nat
  priv : Nat
  pub : Nat
deriving DecidableEq, Repr

/-- Modelled from the spec: the zero placeholder private key `ZERO_PRIVKEY`
from `./common` (a 32-byte zero buffer); `./common` is not part of the
provided sources. -/
def ZERO_PRIVKEY : Nat := 0

/-- Modelled from the spec: the zero placeholder public key `ZERO_KEY` from
`./common` (a zero buffer); `./common` is not part of the provided sources. -/
def ZERO_KEY : Nat := 0

/-- `const hdPathString = "m/44'/0'/0'/0"` — the default derivation path. -/
def hdPathString : String := "m/44'/0'/0'/0"

/-- The external pure collaborators of the class (spec §6): elliptic-curve
key arithmetic, BIP32 derivation, address encoding, bitcore message
verification, mnemonic-to-seed conversion. -/
structure HDEnv where
  /-- secp256k1: public key of a private key (`ECPair.fromPrivateKey`,
  `hdkey` node key relation). -/
  pubOf : Nat → Nat
  /-- `hdkey.fromMasterSeed(seed).derive(path).privateKey`. -/
  deriveRootPriv : List Nat → String → Nat
  /-- `root.deriveChild(i).privateKey` where `root` was derived from the
  given seed and path. -/
  deriveChildPriv : List Nat → String → Nat → Nat
  /-- Modelled from the spec: `BaseWallet.getAddress` — the address-encoding
  scheme, a function of the instance's `addressType` tag and a public key;
  `./base` is not part of the provided sources. -/
  addr : Option Nat → Nat → String
  /-- bitcore's own address encoding of a public key, used by
  `bitcore.Message.verify` when it compares the recovered signer key against
  the caller-supplied address. -/
  bitcoreAddr : Nat → String
  /-- `bip39.mnemonicToSeed mnemonic passphrase` (the resolved value of the
  asynchronous conversion). -/
  mnemonicToSeed : String → String → List Nat

/-- The instance state of `HDPrivateKey` (fields in source order;
`hdWallet` is omitted — see the header — and `addressType` comes from
`BaseWallet`, modelled from the spec as an opaque optional tag). -/
structure HDState where
  childIndex : Nat := 0
  privateKey : Nat := ZERO_PRIVKEY
  publicKey : Nat := ZERO_KEY
  wallets : List ECPair := []
  seed : Option (List Nat) := none
  index2wallet : List (Nat × (String × ECPair)) := []
  root : Option (List Nat × String) := none
  hdPath : String := hdPathString
  addressType : Option Nat := none
deriving DecidableEq, Repr

/-- `new HDPrivateKey()` (no options): all fields at their declared
defaults. -/
def freshState : HDState := {}

/-- Lookup in the `Record<number, [string, ECPairInterface]>` cache
`_index2wallet` (first binding for the key wins; a key is written at most
once per path lifetime, so the representation is faithful). -/
def alookup {α : Type} (i : Nat) : List (Nat × α) → Option α
  | [] => none
  | (j, v) :: rest => if i = j then some v else alookup i rest

/-- Equality of `Except` results is decidable when both component types
have decidable equality (used to evaluate the development on closed
inputs). -/
instance {a b : Type} [DecidableEq a] [DecidableEq b] : DecidableEq (Except a b) :=
  fun x y =>
    match x, y with
    | .ok v, .ok w =>
      if h : v = w then isTrue (by rw [h]) else isFalse (by intro hh; cases hh; exact h rfl)
    | .error v, .error w =>
      if h : v = w then isTrue (by rw [h]) else isFalse (by intro hh; cases hh; exact h rfl)
    | .ok _, .error _ => isFalse (by intro hh; cases hh)
    | .error _, .ok _ => isFalse (by intro hh; cases hh)

/-- Modelled from the spec: `BaseWallet.getAddress` applied to the
instance's current `addressType` (`./base` is not part of the provided
sources; the spec specifies it as the external address-encoding scheme). -/
def getAddress (e : HDEnv) (s : HDState) (pub : Nat) : String :=
  e.addr s.addressType pub

/-- `getAccounts()`: the root address first (from the `publicKey` field),
then the addresses of the registered wallets in registration order. -/
def getAccounts (e : HDEnv) (s : HDState) : List String :=
  getAddress e s s.publicKey :: s.wallets.map (fun w => getAddress e s w.pub)

/-- `changeHdPath(hdPath)`: store the new path, re-derive `root` from the
master node (present iff `seed` is), clear the cache and the registry.
The `publicKey`/`privateKey` fields are *not* touched. -/
def changeHdPath (s : HDState) (p : String) : HDState :=
  { s with hdPath := p,
           root := s.seed.map (fun sd => (sd, p)),
           index2wallet := [],
           wallets := [] }

/-- `fromOptions(options)`: reset `childIndex` to 0, install the seed,
re-derive the master node and root along the *current* `hdPath`, and load
the root key material into the `publicKey`/`privateKey` fields.  (The method
is declared `async` but contains no `await`, so its whole body runs
synchronously.)  Other fields — in particular `wallets`, `_index2wallet` and
`addressType` — are left as they were. -/
def fromOptions (e : HDEnv) (s : HDState) (sd : List Nat) : HDState :=
  { s with childIndex := 0,
           seed := some sd,
           root := some (sd, s.hdPath),
           publicKey := e.pubOf (e.deriveRootPriv sd s.hdPath),
           privateKey := e.deriveRootPriv sd s.hdPath }

/-- `fromSeed(seed)`: like `fromOptions` but without resetting
`childIndex`. -/
def fromSeed (e : HDEnv) (s : HDState) (sd : List Nat) : HDState :=
  { s with seed := some sd,
           root := some (sd, s.hdPath),
           privateKey := e.deriveRootPriv sd s.hdPath,
           publicKey := e.pubOf (e.deriveRootPriv sd s.hdPath) }

/-- `static fromSeed(seed)` = `new this().fromSeed(seed)`. -/
def fromSeedStatic (e : HDEnv) (sd : List Nat) : HDState :=
  fromSeed e freshState sd

/-- `_addressFromIndex(i)`: on a cache miss derive the child private key
from `root`, wrap it in a fresh `ECPair` object, encode its address, store
the pair; return the cached pair.  The third component counts how many times
the external child-derivation primitive ran during the call (the "counting
stub" of spec §8) — it is 1 on a miss and 0 on a hit.  A missing `root`
makes `deriveChild` blow up with a `TypeError`. -/
def addressFromIndex (e : HDEnv) (s : HDState) (i : Nat) :
    Except HDErr ((String × ECPair) × HDState × Nat) :=
  match alookup i s.index2wallet with
  | some entry => .ok (entry, s, 0)
  | none =>
    match s.root with
    | none => .error .typeError
    | some (sd, p) =>
      let k := e.deriveChildPriv sd p i
      let w : ECPair := ⟨i, k, e.pubOf k⟩
      let address := e.addr s.addressType w.pub
      .ok ((address, w), { s with index2wallet := (i, (address, w)) :: s.index2wallet }, 1)

/-- Bound on the indices currently known to a state (cache keys and wallet
creation indices); used only for the termination measure of the
`addAccounts` loop. -/
def stateBound (s : HDState) : Nat :=
  (s.index2wallet.map (fun q => q.1) ++ s.wallets.map (fun w => w.idx)).foldr Nat.max 0

/-- The body of `addAccounts`'s `while (count)` loop.  Each iteration derives
the wallet object for `currentIdx` through the cache; if that object is
already registered (`this.wallets.includes(wallet)` — object identity) the
index is bumped, otherwise the object is registered, its address recorded,
and the remaining count decremented (`currentIdx` is *not* bumped in that
branch; the next iteration re-derives the now-cached object and takes the
skip branch). -/
def addAccountsGo (e : HDEnv) (count currentIdx : Nat) (s : HDState)
    (acc : List String) : Except HDErr (List String × HDState) :=
  if h0 : count = 0 then .ok (acc, s)
  else
    match h1 : addressFromIndex e s currentIdx with
    | .error er => .error er
    | .ok ((address, wallet), s1, _n) =>
      if h2 : wallet ∈ s1.wallets then
        addAccountsGo e count (currentIdx + 1) s1 acc
      else
        addAccountsGo e (count - 1) currentIdx
          { s1 with wallets := s1.wallets ++ [wallet] } (acc ++ [address])
termination_by (count, stateBound s + 1 - currentIdx)
decreasing_by
  · apply Prod.Lex.right
    have hmax : ∀ (l : List Nat) (a : Nat), a ∈ l → a ≤ l.foldr Nat.max 0 := by
      intro l
      induction l with
      | nil => intro a ha; cases ha
      | cons b rest ih =>
        intro a ha
        rcases List.mem_cons.mp ha with ha | ha
        · subst ha; exact Nat.le_max_left _ _
        · exact Nat.le_trans (ih a ha) (Nat.le_max_right _ _)
    unfold addressFromIndex at h1
    cases hl : alookup currentIdx s.index2wallet with
    | some entry =>
      rw [hl] at h1
      simp only [Except.ok.injEq, Prod.mk.injEq] at h1
      obtain ⟨-, hs, -⟩ := h1
      have hkey : currentIdx ∈ s.index2wallet.map (fun q => q.1) := by
        have alem : ∀ (l : List (Nat × (String × ECPair))),
            (alookup currentIdx l).isSome → currentIdx ∈ l.map (fun q => q.1) := by
          intro l
          induction l with
          | nil => intro hx; simp [alookup] at hx
          | cons q rest ih =>
            intro hx
            obtain ⟨j, w⟩ := q
            by_cases hij : currentIdx = j
            · simp only [List.map_cons]
              rw [hij]
              exact List.mem_cons_self _ _
            · simp only [alookup, if_neg hij] at hx
              exact List.mem_cons_of_mem _ (ih hx)
        exact alem _ (by rw [hl]; rfl)
      have hcur : currentIdx ≤ stateBound s :=
        hmax _ _ (List.mem_append_left _ hkey)
      rw [← hs]
      omega
    | none =>
      rw [hl] at h1
      cases hr : s.root with
      | none => rw [hr] at h1; cases h1
      | some q =>
        rw [hr] at h1
        simp only [Except.ok.injEq, Prod.mk.injEq] at h1
        obtain ⟨⟨-, hw⟩, hs, -⟩ := h1
        have hidx : wallet.idx = currentIdx := by rw [← hw]
        have h2' : wallet ∈ s.wallets := by
          rw [← hs] at h2
          exact h2
        have hcur : currentIdx ≤ stateBound s := by
          rw [← hidx]
          exact hmax _ _ (List.mem_append_right _ (List.mem_map_of_mem _ h2'))
        have hsb : stateBound s1 = stateBound s := by
          rw [← hs]
          simp only [stateBound] at hcur ⊢
          simp only [List.map_cons, List.cons_append, List.foldr_cons]
          exact Nat.max_eq_right hcur
        rw [hsb]
        omega
  · apply Prod.Lex.left
    omega

/-- `addAccounts(number = 1)`: start at index 1 on an empty registry and at
`wallets.length` otherwise, then run the loop. -/
def addAccounts (e : HDEnv) (s : HDState) (n : Nat) :
    Except HDErr (List String × HDState) :=
  addAccountsGo e n (if s.wallets.length = 0 then 1 else s.wallets.length) s []

/-- `findAccountByPk(publicKey)` — `wallets.find` by hex-encoded public key
(keys compared by value; the hex layer is a bijection, see the header). -/
def findAccountByPk (s : HDState) (pk : Nat) : Option ECPair :=
  s.wallets.find? (fun f => f.pub = pk)

/-- A bitcore message signature, represented by its determining data: the
signing private key (recoverable from a compact signature) and the signed
text. -/
structure MsgSig where
  priv : Nat
  text : String
deriving DecidableEq, Repr

/-- `signMessage(address, text)`: look the address up among the registered
wallets; the `?? ""` fallback feeds the empty string (here: `none`) to
`_getPrivateKeyFor`, which throws "Must specify publicKey." on it and
otherwise resolves the wallet again by public key
(`_getWalletForAccount`). -/
def signMessage (e : HDEnv) (s : HDState) (address : String) (text : String) :
    Except HDErr MsgSig :=
  match (s.wallets.find? (fun f => getAddress e s f.pub = address)).map
      (fun f => f.pub) with
  | none => .error .mustSpecifyPublicKey
  | some pk =>
    match s.wallets.find? (fun w => w.pub = pk) with
    | none => .error .unableToFindMatchingPublicKey
    | some w => .ok ⟨w.priv, text⟩

/-- `verifyMessage(address, text, sig)`: bitcore recovers the signer's
public key from the signature, re-encodes it as an address and compares,
also checking the signature covers the given text (external primitive,
abstracted through `HDEnv`). -/
def verifyMessage (e : HDEnv) (address text : String) (sig : MsgSig) : Bool :=
  decide (e.bitcoreAddr (e.pubOf sig.priv) = address ∧ sig.text = text)

/-- One PSBT input: the private keys that have signed it so far, and its
finalization flag. -/
structure PsbtInput where
  sigs : List Nat := []
  finalized : Bool := false
deriving DecidableEq, Repr

/-- A `Psbt` is the list of its inputs. -/
abbrev Psbt : Type := List PsbtInput

/-- A `ToSignInput` descriptor `{index, publicKey, sighashTypes}` (the
public key as the value its hex string denotes; the sighash types do not
influence anything this development observes and are dropped). -/
structure ToSignInput where
  index : Nat
  publicKey : Nat
deriving DecidableEq, Repr

/-- `psbt.signInput(index, keyPair, ...)`: attach a signature by `priv` to
input `index`; an out-of-range index throws. -/
def signInput (psbt : Psbt) (index : Nat) (priv : Nat) : Option Psbt :=
  if index < List.length psbt then
    some (List.set psbt index
      (let q := List.getD psbt index {}
       { q with sigs := q.sigs ++ [priv] }))
  else none

/-- `psbt.finalizeAllInputs()`. -/
def finalizeAllInputs (psbt : Psbt) : Psbt :=
  List.map (fun q => { q with finalized := true }) psbt

/-- The `inputs.map(...)` loop of `signPsbt` followed by
`finalizeAllInputs`.  Because the JavaScript methods mutate the PSBT in
place, a thrown error leaves the PSBT in its intermediate state: the result
is the final PSBT value *paired with* the error, if any. -/
def signPsbtGo (s : HDState) : Psbt → List ToSignInput → Psbt × Option HDErr
  | psbt, [] => (finalizeAllInputs psbt, none)
  | psbt, inp :: rest =>
    match findAccountByPk s inp.publicKey with
    | none => (psbt, some .accountNotFoundByPk)
    | some acc =>
      match signInput psbt inp.index acc.priv with
      | none => (psbt, some .rangeError)
      | some psbt1 => signPsbtGo s psbt1 rest

/-- `signPsbt(psbt, inputs)`: resolve each descriptor's key by public key
and sign the designated input in order; afterwards finalize every input. -/
def signPsbt (s : HDState) (psbt : Psbt) (inputs : List ToSignInput) :
    Psbt × Option HDErr :=
  signPsbtGo s psbt inputs

/-- `serialize()`: only the root context (`childIndex == 0`) may serialize;
the persisted state is the account count, the seed and the address type.
The method reads but never writes the instance state.  (`toHex(this.seed!)`
on an instance without a seed would be a `TypeError`.) -/
structure SerializedHDKey where
  numberOfAccounts : Option Nat := none
  seed : List Nat := []
  addressType : Option Nat := none
deriving DecidableEq, Repr

def serialize (s : HDState) : Except HDErr SerializedHDKey :=
  if s.childIndex ≠ 0 then .error .invalidOperation
  else
    match s.seed with
    | none => .error .typeError
    | some sd =>
      .ok { numberOfAccounts := some s.wallets.length,
            seed := sd,
            addressType := s.addressType }

/-- `static deserialize(opts)`: reject a missing `numberOfAccounts` or an
empty/missing seed; rebuild a root instance from the seed, install the
persisted `addressType`, and (for a nonzero count) re-add that many
accounts. -/
def deserializeStatic (e : HDEnv) (opts : SerializedHDKey) :
    Except HDErr HDState :=
  match opts.numberOfAccounts with
  | none => .error .deserializationError
  | some k =>
    if opts.seed = [] then .error .deserializationError
    else
      let root := { fromSeedStatic e opts.seed with addressType := opts.addressType }
      if k = 0 then .ok root
      else (addAccounts e root k).map (fun r => r.2)

/-- The *instance* `deserialize(state)`: run the static deserializer, then
re-run `fromOptions` on `this` with only the seed of the result — the
reconstructed accounts and the persisted `addressType` are discarded. -/
def deserializeInstance (e : HDEnv) (s : HDState) (opts : SerializedHDKey) :
    Except HDErr HDState :=
  match deserializeStatic e opts with
  | .error er => .error er
  | .ok d =>
    match d.seed with
    | none => .error .typeError
    | some sd => .ok (fromOptions e s sd)

/-- The pending asynchronous mnemonic-to-seed conversion started by
`fromMnemonic`: the method's first statement `await mnemonicToSeed(...)`
suspends before any field is assigned, so starting the call changes no
state; it only records what will be converted (with the fixed default
passphrase "bells"). -/
structure PendingMnemonic where
  mnemonic : String
  passphrase : String
deriving DecidableEq, Repr

/-- The synchronous prefix of `async fromMnemonic(mnemonic, passphrase?)`:
evaluate the awaited expression's arguments and suspend.  No instance field
is written before the suspension point. -/
def fromMnemonicStart (s : HDState) (mnemonic : String)
    (passphrase : Option String) : HDState × PendingMnemonic :=
  (s, ⟨mnemonic, passphrase.getD "bells"⟩)

/-- The continuation of `fromMnemonic` after the awaited promise resolves:
install the seed and the root key material (along the current path). -/
def fromMnemonicResume (e : HDEnv) (s : HDState) (p : PendingMnemonic) : HDState :=
  let sd := e.mnemonicToSeed p.mnemonic p.passphrase
  { s with seed := some sd,
           root := some (sd, s.hdPath),
           publicKey := e.pubOf (e.deriveRootPriv sd s.hdPath),
           privateKey := e.deriveRootPriv sd s.hdPath }

/-- `fromPhrase(phrase)`: kick off `fromMnemonic(phrase)` *without awaiting
it* and return `this` immediately; the state at the moment of return is the
first component, the un-awaited conversion the second. -/
def fromPhrase (s : HDState) (phrase : String) : HDState × PendingMnemonic :=
  fromMnemonicStart s phrase none

/-- `static fromPhrase(phrase)` = `new this().fromPhrase(phrase)`. -/
def fromPhraseStatic (phrase : String) : HDState × PendingMnemonic :=
  fromPhrase freshState phrase

/-! ### Canonical registry states

`addAccounts` starting from an empty registry registers the child indices
`1, 2, …` consecutively; the states it passes through are described in
closed form by `withAccts` below, which the loop lemmas compute with. -/

/-- The (unique, per path lifetime) wallet object `_addressFromIndex`
creates for child index `i`. -/
def cWallet (e : HDEnv) (sd : List Nat) (p : String) (i : Nat) : ECPair :=
  ⟨i, e.deriveChildPriv sd p i, e.pubOf (e.deriveChildPriv sd p i)⟩

/-- The address of child index `i` under address type `aT`. -/
def cAddr (e : HDEnv) (aT : Option Nat) (sd : List Nat) (p : String) (i : Nat) :
    String :=
  e.addr aT (e.pubOf (e.deriveChildPriv sd p i))

/-- The cache entry `_addressFromIndex` stores for child index `i`. -/
def cEntry (e : HDEnv) (aT : Option Nat) (sd : List Nat) (p : String) (i : Nat) :
    Nat × (String × ECPair) :=
  (i, (cAddr e aT sd p i, cWallet e sd p i))

/-- The base state `b` with the registry holding the canonical wallets of
child indices `1..L` (in order) and the cache holding exactly their entries
(most recently written first). -/
def withAccts (e : HDEnv) (b : HDState) (sd : List Nat) (p : String) (L : Nat) :
    HDState :=
  { b with wallets := (List.range' 1 L).map (cWallet e sd p),
           index2wallet :=
             ((List.range' 1 L).map (cEntry e b.addressType sd p)).reverse }

/-! ### Concrete environments for witnesses and counterexamples

The external collaborators are arbitrary pure functions; the following small
instantiations are used to evaluate the development on closed inputs. -/

/-- A collision-free environment: child index `i` gets private key `i`, the
public key equals the private key, and addresses are unary strings (so the
address map is injective). -/
def eInj : HDEnv :=
  { pubOf := fun n => n,
    deriveRootPriv := fun sd p => 100 + sd.length + p.length,
    deriveChildPriv := fun _ _ i => i,
    addr := fun _ pub => String.mk (List.replicate pub 'a'),
    bitcoreAddr := fun pub => String.mk (List.replicate pub 'a'),
    mnemonicToSeed := fun _ _ => [0] }

/-- A path-sensitive environment: derived keys depend on the derivation
path's length, so changing the path observably changes root and child
keys. -/
def ePath : HDEnv :=
  { pubOf := fun n => n,
    deriveRootPriv := fun _ p => 50 + p.length,
    deriveChildPriv := fun _ p i => p.length + i,
    addr := fun _ pub => String.mk (List.replicate pub 'a'),
    bitcoreAddr := fun pub => String.mk (List.replicate pub 'a'),
    mnemonicToSeed := fun _ _ => [0] }

/-- A pathological environment in which child indices 1 and 2 derive the
*same* private key (the "re-derivation collision" of the spec). -/
def eColl : HDEnv :=
  { pubOf := fun n => n,
    deriveRootPriv := fun _ _ => 90,
    deriveChildPriv := fun _ _ i => if i ≤ 2 then 7 else i,
    addr := fun _ pub => String.mk (List.replicate pub 'a'),
    bitcoreAddr := fun pub => String.mk (List.replicate pub 'a'),
    mnemonicToSeed := fun _ _ => [0] }

/-! ## Helper lemmas -/

theorem alookup_none_of_forall {α : Type} {i : Nat} :
    ∀ {l : List (Nat × α)}, (∀ q ∈ l, q.1 ≠ i) → alookup i l = none
  | [], _ => rfl
  | (j, w) :: rest, h => by
    have hj : ¬(i = j) := fun hij => h (j, w) (List.mem_cons_self _ _) hij.symm
    simp only [alookup, if_neg hj]
    exact alookup_none_of_forall (fun q hq => h q (List.mem_cons_of_mem _ hq))

theorem withAccts_cache_succ (e : HDEnv) (b : HDState) (sd : List Nat)
    (p : String) (L : Nat) :
    (withAccts e b sd p (L + 1)).index2wallet =
      cEntry e b.addressType sd p (L + 1) ::
        (withAccts e b sd p L).index2wallet := by
  have h : List.range' 1 (L + 1) = List.range' 1 L ++ [L + 1] := by
    rw [List.range'_1_concat, Nat.add_comm]
  simp [withAccts, h]

theorem withAccts_wallets_succ (e : HDEnv) (b : HDState) (sd : List Nat)
    (p : String) (L : Nat) :
    (withAccts e b sd p (L + 1)).wallets =
      (withAccts e b sd p L).wallets ++ [cWallet e sd p (L + 1)] := by
  have h : List.range' 1 (L + 1) = List.range' 1 L ++ [L + 1] := by
    rw [List.range'_1_concat, Nat.add_comm]
  simp [withAccts, h]

theorem alookup_withAccts_none (e : HDEnv) (b : HDState) (sd : List Nat)
    (p : String) (L : Nat) {i : Nat} (hi : L < i) :
    alookup i (withAccts e b sd p L).index2wallet = none := by
  apply alookup_none_of_forall
  intro q hq
  simp only [withAccts, List.mem_reverse, List.mem_map] at hq
  obtain ⟨j, hj, rfl⟩ := hq
  have := (List.mem_range'_1.mp hj).2
  simp only [cEntry]
  omega

theorem alookup_withAccts (e : HDEnv) (b : HDState) (sd : List Nat)
    (p : String) :
    ∀ (L i : Nat), 1 ≤ i → i ≤ L →
      alookup i (withAccts e b sd p L).index2wallet =
        some (cAddr e b.addressType sd p i, cWallet e sd p i)
  | 0, i, h1, h2 => by omega
  | L + 1, i, h1, h2 => by
    rw [withAccts_cache_succ]
    by_cases hi : i = L + 1
    · subst hi
      simp [alookup, cEntry]
    · have hle : i ≤ L := by omega
      simp only [cEntry, alookup, if_neg hi]
      exact alookup_withAccts e b sd p L i h1 hle

theorem cWallet_mem (e : HDEnv) (sd : List Nat) (p : String) {i L : Nat}
    (h1 : 1 ≤ i) (h2 : i ≤ L) :
    cWallet e sd p i ∈ (List.range' 1 L).map (cWallet e sd p) :=
  List.mem_map_of_mem _ (List.mem_range'_1.mpr ⟨h1, by omega⟩)

theorem cWallet_not_mem (e : HDEnv) (sd : List Nat) (p : String) {L : Nat} :
    cWallet e sd p (L + 1) ∉ (List.range' 1 L).map (cWallet e sd p) := by
  intro h
  obtain ⟨j, hj, hje⟩ := List.mem_map.mp h
  have hLj : j = L + 1 := congrArg ECPair.idx hje
  have := (List.mem_range'_1.mp hj).2
  omega

theorem withAccts_root (e : HDEnv) (b : HDState) (sd : List Nat) (p : String)
    (L : Nat) (hroot : b.root = some (sd, p)) :
    (withAccts e b sd p L).root = some (sd, p) := by
  simp [withAccts, hroot]

/-- `_addressFromIndex` on a canonical state, uncached index `L + 1`:
derives once and prepends the canonical cache entry. -/
theorem afi_withAccts_miss (e : HDEnv) (b : HDState) (sd : List Nat)
    (p : String) (hroot : b.root = some (sd, p)) (L : Nat) :
    addressFromIndex e (withAccts e b sd p L) (L + 1) =
      .ok ((cAddr e b.addressType sd p (L + 1), cWallet e sd p (L + 1)),
           { withAccts e b sd p L with
               index2wallet := cEntry e b.addressType sd p (L + 1) ::
                 (withAccts e b sd p L).index2wallet },
           1) := by
  unfold addressFromIndex
  rw [alookup_withAccts_none e b sd p L (by omega)]
  rw [withAccts_root e b sd p L hroot]
  simp [cEntry, cAddr, cWallet, withAccts, hroot]

/-- `_addressFromIndex` on a canonical state, cached index: returns the
stored entry, runs no derivation, leaves the state unchanged. -/
theorem afi_withAccts_hit (e : HDEnv) (b : HDState) (sd : List Nat)
    (p : String) (L i : Nat) (h1 : 1 ≤ i) (h2 : i ≤ L) :
    addressFromIndex e (withAccts e b sd p L) i =
      .ok ((cAddr e b.addressType sd p i, cWallet e sd p i),
           withAccts e b sd p L, 0) := by
  unfold addressFromIndex
  rw [alookup_withAccts e b sd p L i h1 h2]

/-- The canonical run of the `addAccounts` loop: starting with `count = c`
at index `L + 1` on a registry holding indices `1..L`, the loop registers
exactly the indices `L+1 .. L+c` in order (deriving each fresh index,
registering it, then skipping over its now-cached object) and returns their
addresses. -/
theorem go_canon (e : HDEnv) (b : HDState) (sd : List Nat) (p : String)
    (hroot : b.root = some (sd, p)) :
    ∀ (c L : Nat) (acc : List String),
      addAccountsGo e c (L + 1) (withAccts e b sd p L) acc =
        .ok (acc ++ (List.range' (L + 1) c).map (cAddr e b.addressType sd p),
             withAccts e b sd p (L + c)) := by
  intro c
  induction c with
  | zero =>
    intro L acc
    rw [addAccountsGo]
    simp
  | succ c ih =>
    intro L acc
    rw [addAccountsGo]
    rw [dif_neg (Nat.succ_ne_zero c)]
    split
    · next er heq =>
      rw [afi_withAccts_miss e b sd p hroot L] at heq
      cases heq
    · next address wallet s1 n1 heq =>
      rw [afi_withAccts_miss e b sd p hroot L] at heq
      simp only [Except.ok.injEq, Prod.mk.injEq] at heq
      obtain ⟨⟨ha, hw⟩, hs, -⟩ := heq
      subst ha
      subst hw
      subst hs
      rw [dif_neg (by
        simp only [withAccts]
        exact cWallet_not_mem e sd p)]
      have hreg : { ({ withAccts e b sd p L with
            index2wallet := cEntry e b.addressType sd p (L + 1) ::
              (withAccts e b sd p L).index2wallet } : HDState) with
            wallets := (withAccts e b sd p L).wallets ++ [cWallet e sd p (L + 1)] } =
          withAccts e b sd p (L + 1) := by
        have h : List.range' 1 (L + 1) = List.range' 1 L ++ [L + 1] := by
          rw [List.range'_1_concat, Nat.add_comm]
        simp [withAccts, h, cEntry]
      simp only [Nat.add_sub_cancel]
      rw [hreg]
      cases c with
      | zero =>
        rw [addAccountsGo]
        simp [List.range']
      | succ c' =>
        rw [addAccountsGo]
        rw [dif_neg (Nat.succ_ne_zero c')]
        split
        · next er heq =>
          rw [afi_withAccts_hit e b sd p (L + 1) (L + 1) (by omega) (by omega)] at heq
          cases heq
        · next address wallet s1 n1 heq =>
          rw [afi_withAccts_hit e b sd p (L + 1) (L + 1) (by omega) (by omega)] at heq
          simp only [Except.ok.injEq, Prod.mk.injEq] at heq
          obtain ⟨⟨ha, hw⟩, hs, -⟩ := heq
          subst ha
          subst hw
          subst hs
          rw [dif_pos (by
            simp only [withAccts]
            exact cWallet_mem e sd p (by omega) (by omega))]
          rw [ih (L + 1) (acc ++ [cAddr e b.addressType sd p (L + 1)])]
          have h1 : L + 1 + (c' + 1) = L + (c' + 1 + 1) := by omega
          have h2 : List.range' (L + 1) (c' + 1 + 1) =
              (L + 1) :: List.range' (L + 2) (c' + 1) := by
            rw [List.range'_succ]
          rw [h1, h2]
          simp

/-- `addAccounts(c)` on a canonical state with registered indices `1..L`
(any `L`, including the empty registry) succeeds and registers exactly the
indices `L+1 .. L+c`, returning their addresses: the computed start index is
1 on an empty registry and `L` otherwise, and in the latter case the first
iteration skips the already-registered index `L`. -/
theorem addAccounts_canon (e : HDEnv) (b : HDState) (sd : List Nat)
    (p : String) (hroot : b.root = some (sd, p)) (L c : Nat) (hc : 1 ≤ c) :
    addAccounts e (withAccts e b sd p L) c =
      .ok ((List.range' (L + 1) c).map (cAddr e b.addressType sd p),
           withAccts e b sd p (L + c)) := by
  unfold addAccounts
  cases L with
  | zero =>
    have hlen : (withAccts e b sd p 0).wallets.length = 0 := by
      simp [withAccts]
    rw [hlen]
    simpa using go_canon e b sd p hroot c 0 []
  | succ M =>
    have hlen : (withAccts e b sd p (M + 1)).wallets.length = M + 1 := by
      simp [withAccts]
    rw [hlen]
    rw [if_neg (Nat.succ_ne_zero M)]
    rw [addAccountsGo]
    rw [dif_neg (by omega : ¬(c = 0))]
    split
    · next er heq =>
      rw [afi_withAccts_hit e b sd p (M + 1) (M + 1) (by omega) (by omega)] at heq
      cases heq
    · next address wallet s1 n1 heq =>
      rw [afi_withAccts_hit e b sd p (M + 1) (M + 1) (by omega) (by omega)] at heq
      simp only [Except.ok.injEq, Prod.mk.injEq] at heq
      obtain ⟨⟨ha, hw⟩, hs, -⟩ := heq
      subst ha
      subst hw
      subst hs
      rw [dif_pos (by
        simp only [withAccts]
        exact cWallet_mem e sd p (by omega) (by omega))]
      exact go_canon e b sd p hroot c (M + 1) []

/-- A state with an empty registry and an empty cache is its own canonical
form with zero accounts. -/
theorem withAccts_zero (e : HDEnv) (b : HDState) (sd : List Nat) (p : String)
    (hw : b.wallets = []) (hc : b.index2wallet = []) :
    withAccts e b sd p 0 = b := by
  simp only [withAccts, List.range', List.map_nil, List.reverse_nil]
  rw [← hw, ← hc]

/-- Case analysis of a successful `_addressFromIndex` call: the wallets list
is untouched, and either the index was cached (state unchanged) or a fresh
entry carrying the requested index was prepended to the cache. -/
theorem addressFromIndex_ok {e : HDEnv} {s : HDState} {i : Nat}
    {ent : String × ECPair} {s1 : HDState} {n : Nat}
    (h : addressFromIndex e s i = .ok (ent, s1, n)) :
    s1.wallets = s.wallets ∧
      ((s1 = s ∧ alookup i s.index2wallet = some ent) ∨
       (alookup i s.index2wallet = none ∧
        s1 = { s with index2wallet := (i, ent) :: s.index2wallet })) := by
  unfold addressFromIndex at h
  cases hl : alookup i s.index2wallet with
  | some entry =>
    rw [hl] at h
    simp only [Except.ok.injEq, Prod.mk.injEq] at h
    obtain ⟨he, hs, -⟩ := h
    subst he
    subst hs
    exact ⟨rfl, Or.inl ⟨rfl, rfl⟩⟩
  | none =>
    rw [hl] at h
    cases hr : s.root with
    | none => rw [hr] at h; cases h
    | some q =>
      rw [hr] at h
      simp only [Except.ok.injEq, Prod.mk.injEq] at h
      obtain ⟨he, hs, -⟩ := h
      subst he
      subst hs
      exact ⟨rfl, Or.inr ⟨rfl, rfl⟩⟩

/-- The `addAccounts` loop never overwrites an existing cache binding: a key
already bound before the loop is bound to the same entry afterwards. -/
theorem go_cache_preserved (e : HDEnv) :
    ∀ (count idx : Nat) (s : HDState) (acc : List String)
      (r : List String × HDState),
      addAccountsGo e count idx s acc = .ok r →
      ∀ (i : Nat) (ent : String × ECPair),
        alookup i s.index2wallet = some ent →
        alookup i r.2.index2wallet = some ent := by
  intro count idx s acc
  induction count, idx, s, acc using addAccountsGo.induct e with
  | case1 idx s acc =>
    intro r hr i ent hent
    rw [addAccountsGo] at hr
    rw [dif_pos rfl] at hr
    cases hr
    exact hent
  | case2 count idx s acc h0 er h1 =>
    intro r hr i ent hent
    rw [addAccountsGo] at hr
    rw [dif_neg h0] at hr
    split at hr
    · cases hr
    · next address wallet s1 n1 heq =>
      rw [h1] at heq
      cases heq
  | case3 count idx s acc h0 address wallet s1 n1 h1 h2 ih =>
    intro r hr i ent hent
    rw [addAccountsGo] at hr
    rw [dif_neg h0] at hr
    split at hr
    · next er heq => rw [h1] at heq; cases heq
    · next address' wallet' s1' n1' heq =>
      rw [h1] at heq
      simp only [Except.ok.injEq, Prod.mk.injEq] at heq
      obtain ⟨⟨ha, hw⟩, hs, hn⟩ := heq
      subst ha
      subst hw
      subst hs
      rw [dif_pos h2] at hr
      apply ih r hr i ent
      obtain ⟨-, hcase⟩ := addressFromIndex_ok h1
      rcases hcase with ⟨hss, -⟩ | ⟨hnone, hss⟩
      · rw [hss]; exact hent
      · rw [hss]
        have hne : ¬(i = idx) := fun hii => by
          rw [hii] at hent
          rw [hent] at hnone
          cases hnone
        simp only [alookup, if_neg hne]
        exact hent
  | case4 count idx s acc h0 address wallet s1 n1 h1 h2 ih =>
    intro r hr i ent hent
    rw [addAccountsGo] at hr
    rw [dif_neg h0] at hr
    split at hr
    · next er heq => rw [h1] at heq; cases heq
    · next address' wallet' s1' n1' heq =>
      rw [h1] at heq
      simp only [Except.ok.injEq, Prod.mk.injEq] at heq
      obtain ⟨⟨ha, hw⟩, hs, hn⟩ := heq
      subst ha
      subst hw
      subst hs
      rw [dif_neg h2] at hr
      apply ih r hr i ent
      show alookup i s1.index2wallet = some ent
      obtain ⟨-, hcase⟩ := addressFromIndex_ok h1
      rcases hcase with ⟨hss, -⟩ | ⟨hnone, hss⟩
      · rw [hss]; exact hent
      · rw [hss]
        have hne : ¬(i = idx) := fun hii => by
          rw [hii] at hent
          rw [hent] at hnone
          cases hnone
        simp only [alookup, if_neg hne]
        exact hent

/-! ## Claim C3 — path-change invalidation (corrected) -/

/-- C3 (counterexample): in the path-sensitive environment `ePath`, after
`changeHdPath("m")` on an instance built from seed `[1]`, `getAccounts()` is
indeed a one-element list — but its element is *not* the address of the root
key-pair obtained by applying the new path `"m"` to the seed (that would be
the address of `pubOf (deriveRootPriv [1] "m")`); it is the address of the
stale `publicKey` field, still holding the old path's root key. -/
theorem claim3_counterexample :
    getAccounts ePath (changeHdPath (fromSeed ePath freshState [1]) "m") =
      [String.mk (List.replicate 63 'a')] ∧
    getAccounts ePath (changeHdPath (fromSeed ePath freshState [1]) "m") ≠
      [ePath.addr (changeHdPath (fromSeed ePath freshState [1]) "m").addressType
        (ePath.pubOf (ePath.deriveRootPriv [1] "m"))] := by
  constructor
  · decide
  · decide

/-- C3 (amended): after `changeHdPath(newPath)`, `getAccounts()` returns a
one-element list, but the element is the address of the *unchanged*
`publicKey` field — the root key installed when the seed was last loaded
along the then-current path — not of the root re-derived along `newPath`;
the registry and the cache are cleared, the path and `root` node are
updated, and `publicKey`/`privateKey` are left stale. -/
theorem claim3_path_change (e : HDEnv) (s : HDState) (p : String) :
    getAccounts e (changeHdPath s p) = [e.addr s.addressType s.publicKey] ∧
    (changeHdPath s p).publicKey = s.publicKey ∧
    (changeHdPath s p).privateKey = s.privateKey ∧
    (changeHdPath s p).wallets = [] ∧
    (changeHdPath s p).index2wallet = [] ∧
    (changeHdPath s p).hdPath = p ∧
    (changeHdPath s p).root = s.seed.map (fun sd => (sd, p)) :=
  ⟨rfl, rfl, rfl, rfl, rfl, rfl, rfl⟩

/-! ## Claim C7 — serialization guard (confirmed) -/

/-- C7: `serialize` on a non-root instance (`childIndex ≠ 0`) throws the
invalid-operation error ("You should use only root wallet to serializing");
on a root instance with a seed it returns the persistable state
`{numberOfAccounts, seed, addressType}`.  The embedding of `serialize` is a
pure function of the state — the method reads fields and writes none — so
the instance state is unchanged by construction. -/
theorem claim7_serialize_guard (s : HDState) :
    (s.childIndex ≠ 0 → serialize s = .error .invalidOperation) ∧
    (∀ sd, s.childIndex = 0 → s.seed = some sd →
      serialize s = .ok { numberOfAccounts := some s.wallets.length,
                          seed := sd, addressType := s.addressType }) := by
  constructor
  · intro h
    unfold serialize
    rw [if_pos h]
  · intro sd h0 hsd
    unfold serialize
    rw [if_neg (by simp [h0]), hsd]

/-- C7 (witness): evaluated on a non-root instance and on a root instance
freshly built from seed `[1]`. -/
theorem claim7_serialize_guard_witness :
    serialize { freshState with childIndex := 1 } = .error .invalidOperation ∧
    serialize (fromSeed eInj freshState [1]) =
      .ok { numberOfAccounts := some 0, seed := [1], addressType := none } :=
  ⟨(claim7_serialize_guard { freshState with childIndex := 1 }).1 (by decide),
   by
    have h := (claim7_serialize_guard (fromSeed eInj freshState [1])).2 [1] rfl rfl
    simpa using h⟩

/-! ## Claim C10 — fromPhrase does not await (confirmed) -/

/-- C10: `fromPhrase(phrase)` calls the `async` method `fromMnemonic`
without awaiting it and returns `this` at once.  `fromMnemonic`'s first
statement already awaits `mnemonicToSeed`, so at the moment `fromPhrase`
returns no field has been assigned: for a fresh instance the seed is still
unset and `privateKey`/`publicKey` still hold the zero placeholders; the
un-awaited conversion (with the default passphrase "bells") is still
pending. -/
theorem claim10_fromPhrase_no_await (phrase : String) :
    (fromPhrase freshState phrase).1 = freshState ∧
    (fromPhrase freshState phrase).1.seed = none ∧
    (fromPhrase freshState phrase).1.privateKey = ZERO_PRIVKEY ∧
    (fromPhrase freshState phrase).1.publicKey = ZERO_KEY ∧
    (fromPhrase freshState phrase).2 = ⟨phrase, "bells"⟩ ∧
    fromPhraseStatic phrase = fromPhrase freshState phrase :=
  ⟨rfl, rfl, rfl, rfl, rfl, rfl⟩

/-! ## Claim C1 — account addition monotonicity (confirmed) -/

/-- C1: on an instance with an empty registry and cache (and a derived
root), `addAccounts(n)` (n ≥ 1) returns exactly the addresses of child
indices `1..n` in order — n of them, pairwise distinct absent derivation
collisions (injectivity of the index-to-address map) — and a subsequent
`addAccounts(m)` (m ≥ 1) returns the addresses of indices `n+1..n+m`:
m more distinct addresses, disjoint from the first batch, with no index
repeated, and `getAccounts()` grows from `1 + n` entries (the constant root
entry plus n) by exactly m. -/
theorem claim1_addAccounts_monotonicity
    (e : HDEnv) (b : HDState) (sd : List Nat) (p : String) (n m : Nat)
    (hroot : b.root = some (sd, p)) (hw : b.wallets = [])
    (hc : b.index2wallet = []) (hn : 1 ≤ n) (hm : 1 ≤ m)
    (hinj : Function.Injective (cAddr e b.addressType sd p)) :
    addAccounts e b n =
      .ok ((List.range' 1 n).map (cAddr e b.addressType sd p),
           withAccts e b sd p n) ∧
    ((List.range' 1 n).map (cAddr e b.addressType sd p)).length = n ∧
    ((List.range' 1 n).map (cAddr e b.addressType sd p)).Nodup ∧
    addAccounts e (withAccts e b sd p n) m =
      .ok ((List.range' (n + 1) m).map (cAddr e b.addressType sd p),
           withAccts e b sd p (n + m)) ∧
    ((List.range' (n + 1) m).map (cAddr e b.addressType sd p)).length = m ∧
    ((List.range' (n + 1) m).map (cAddr e b.addressType sd p)).Nodup ∧
    (∀ a ∈ (List.range' (n + 1) m).map (cAddr e b.addressType sd p),
       a ∉ (List.range' 1 n).map (cAddr e b.addressType sd p)) ∧
    (withAccts e b sd p (n + m)).wallets.map ECPair.idx =
      List.range' 1 (n + m) ∧
    ((withAccts e b sd p (n + m)).wallets.map ECPair.idx).Nodup ∧
    (getAccounts e (withAccts e b sd p n)).length = 1 + n ∧
    (getAccounts e (withAccts e b sd p (n + m))).length =
      (getAccounts e (withAccts e b sd p n)).length + m := by
  have hidxmap : ∀ L, (withAccts e b sd p L).wallets.map ECPair.idx =
      List.range' 1 L := by
    intro L
    have hcomp : ECPair.idx ∘ cWallet e sd p = id := funext fun i => rfl
    simp [withAccts, List.map_map, hcomp]
  have h1 := addAccounts_canon e b sd p hroot 0 n hn
  rw [withAccts_zero e b sd p hw hc] at h1
  simp only [Nat.zero_add] at h1
  have h2 := addAccounts_canon e b sd p hroot n m hm
  refine ⟨h1, by simp, (List.nodup_range' 1 n 1 Nat.one_pos).map hinj, h2,
    by simp, (List.nodup_range' (n + 1) m 1 Nat.one_pos).map hinj,
    ?_, hidxmap (n + m), (hidxmap (n + m)) ▸ List.nodup_range' 1 (n + m) 1 Nat.one_pos,
    ?_, ?_⟩
  · intro a ha hA
    obtain ⟨i, hi, rfl⟩ := List.mem_map.mp ha
    obtain ⟨j, hj, hji⟩ := List.mem_map.mp hA
    have hij : j = i := hinj hji
    subst hij
    have hbi := (List.mem_range'_1.mp hi).1
    have hbj := (List.mem_range'_1.mp hj).2
    omega
  · simp [getAccounts, withAccts]
    omega
  · simp [getAccounts, withAccts]
    omega

/-- C1 (witness): evaluated in the collision-free environment `eInj` on the
instance built from seed `[1]`, with n = 2 and m = 1. -/
theorem claim1_witness :
    addAccounts eInj (fromSeed eInj freshState [1]) 2 =
      .ok ((List.range' 1 2).map (cAddr eInj none [1] hdPathString),
           withAccts eInj (fromSeed eInj freshState [1]) [1] hdPathString 2) ∧
    ((List.range' 1 2).map (cAddr eInj none [1] hdPathString)).length = 2 ∧
    ((List.range' 1 2).map (cAddr eInj none [1] hdPathString)).Nodup ∧
    addAccounts eInj
        (withAccts eInj (fromSeed eInj freshState [1]) [1] hdPathString 2) 1 =
      .ok ((List.range' 3 1).map (cAddr eInj none [1] hdPathString),
           withAccts eInj (fromSeed eInj freshState [1]) [1] hdPathString 3) ∧
    ((List.range' 3 1).map (cAddr eInj none [1] hdPathString)).length = 1 ∧
    ((List.range' 3 1).map (cAddr eInj none [1] hdPathString)).Nodup ∧
    (∀ a ∈ (List.range' 3 1).map (cAddr eInj none [1] hdPathString),
       a ∉ (List.range' 1 2).map (cAddr eInj none [1] hdPathString)) ∧
    (withAccts eInj (fromSeed eInj freshState [1]) [1] hdPathString 3).wallets.map
        ECPair.idx = List.range' 1 3 ∧
    ((withAccts eInj (fromSeed eInj freshState [1]) [1] hdPathString 3).wallets.map
        ECPair.idx).Nodup ∧
    (getAccounts eInj
        (withAccts eInj (fromSeed eInj freshState [1]) [1] hdPathString 2)).length = 1 + 2 ∧
    (getAccounts eInj
        (withAccts eInj (fromSeed eInj freshState [1]) [1] hdPathString 3)).length =
      (getAccounts eInj
        (withAccts eInj (fromSeed eInj freshState [1]) [1] hdPathString 2)).length + 1 :=
  claim1_addAccounts_monotonicity eInj (fromSeed eInj freshState [1]) [1]
    hdPathString 2 1 rfl rfl rfl (by omega) (by omega)
    (by
      intro i j h
      have hl := congrArg (fun t : String => t.data.length) h
      simpa [cAddr, eInj] using hl)

/-! ## Claim C6 — registry deduplication (corrected) -/

/-- C6 (counterexample): in the environment `eColl`, child indices 1 and 2
derive the *same* private key 7 — yet `addAccounts(2)` on a fresh instance
registers both of them.  `this.wallets.includes(wallet)` compares JavaScript
object identity, and the freshly created `ECPair` object for index 2 is a
different object from the cached one for index 1 even though the key
material is equal, so the value collision is not detected: the registry ends
up with two entries holding equal key-pairs, contradicting the claimed
"no two entries of the registry ever hold equal key-pairs". -/
theorem claim6_counterexample :
    addAccounts eColl (fromSeed eColl freshState [1]) 2 =
      .ok ([String.mk (List.replicate 7 'a'), String.mk (List.replicate 7 'a')],
           withAccts eColl (fromSeed eColl freshState [1]) [1] hdPathString 2) ∧
    (withAccts eColl (fromSeed eColl freshState [1]) [1] hdPathString 2).wallets.map
      (fun w => (w.priv, w.pub)) = [(7, 7), (7, 7)] ∧
    ¬ ((withAccts eColl (fromSeed eColl freshState [1]) [1] hdPathString 2).wallets.map
        (fun w => (w.priv, w.pub))).Nodup := by
  have h := addAccounts_canon eColl (fromSeed eColl freshState [1]) [1]
    hdPathString rfl 0 2 (by omega)
  rw [withAccts_zero eColl (fromSeed eColl freshState [1]) [1] hdPathString rfl rfl] at h
  rw [h]
  refine ⟨?_, by decide, by decide⟩
  simp only [Except.ok.injEq, Prod.mk.injEq]
  exact ⟨by decide, by decide⟩

/-- C6 (amended): the registry is deduplicated by *object identity* — one
cached `ECPair` object per child index — not by key-pair value.  A candidate
index whose cached object is already registered is skipped and the next
index tried, so no child index is ever registered twice and the registered
indices are always `1..len`; but an index whose key-pair merely *equals*
(as a value) that of a different registered index is registered anyway, so
two registry entries can hold equal key-pairs (see the counterexample). -/
theorem claim6_identity_dedup (e : HDEnv) (b : HDState) (sd : List Nat)
    (p : String) (hroot : b.root = some (sd, p)) (hw : b.wallets = [])
    (hc : b.index2wallet = []) (n m : Nat) (hn : 1 ≤ n) (hm : 1 ≤ m) :
    addAccounts e b n =
      .ok ((List.range' 1 n).map (cAddr e b.addressType sd p),
           withAccts e b sd p n) ∧
    (withAccts e b sd p n).wallets.map ECPair.idx = List.range' 1 n ∧
    ((withAccts e b sd p n).wallets.map ECPair.idx).Nodup ∧
    addAccounts e (withAccts e b sd p n) m =
      .ok ((List.range' (n + 1) m).map (cAddr e b.addressType sd p),
           withAccts e b sd p (n + m)) ∧
    (withAccts e b sd p (n + m)).wallets.map ECPair.idx =
      List.range' 1 (n + m) ∧
    ((withAccts e b sd p (n + m)).wallets.map ECPair.idx).Nodup := by
  have hidxmap : ∀ L, (withAccts e b sd p L).wallets.map ECPair.idx =
      List.range' 1 L := by
    intro L
    have hcomp : ECPair.idx ∘ cWallet e sd p = id := funext fun i => rfl
    simp [withAccts, List.map_map, hcomp]
  have h1 := addAccounts_canon e b sd p hroot 0 n hn
  rw [withAccts_zero e b sd p hw hc] at h1
  simp only [Nat.zero_add] at h1
  have h2 := addAccounts_canon e b sd p hroot n m hm
  exact ⟨h1, hidxmap n, (hidxmap n) ▸ List.nodup_range' 1 n 1 Nat.one_pos, h2,
    hidxmap (n + m), (hidxmap (n + m)) ▸ List.nodup_range' 1 (n + m) 1 Nat.one_pos⟩

/-- C6 (witness for the amended claim): evaluated in the *collision*
environment `eColl` — even there, no child index is registered twice. -/
theorem claim6_witness :
    addAccounts eColl (fromSeed eColl freshState [1]) 1 =
      .ok ((List.range' 1 1).map (cAddr eColl none [1] hdPathString),
           withAccts eColl (fromSeed eColl freshState [1]) [1] hdPathString 1) ∧
    (withAccts eColl (fromSeed eColl freshState [1]) [1] hdPathString 1).wallets.map
      ECPair.idx = List.range' 1 1 ∧
    ((withAccts eColl (fromSeed eColl freshState [1]) [1] hdPathString 1).wallets.map
      ECPair.idx).Nodup ∧
    addAccounts eColl
        (withAccts eColl (fromSeed eColl freshState [1]) [1] hdPathString 1) 1 =
      .ok ((List.range' 2 1).map (cAddr eColl none [1] hdPathString),
           withAccts eColl (fromSeed eColl freshState [1]) [1] hdPathString 2) ∧
    (withAccts eColl (fromSeed eColl freshState [1]) [1] hdPathString 2).wallets.map
      ECPair.idx = List.range' 1 2 ∧
    ((withAccts eColl (fromSeed eColl freshState [1]) [1] hdPathString 2).wallets.map
      ECPair.idx).Nodup :=
  claim6_identity_dedup eColl (fromSeed eColl freshState [1]) [1] hdPathString
    rfl rfl rfl 1 1 (by omega) (by omega)

/-! ## Claim C8 — cache: at most one derivation per index (confirmed) -/

/-- C8: for any index `i` within one derivation-path lifetime, the child
derivation runs at most once (the third component of `_addressFromIndex`
counts invocations of the derivation primitive): a cached index is answered
from the cache with zero derivations and an unchanged state; an uncached
index derives exactly once and stores its entry, after which looking it up
again derives zero times and returns the stored entry; the `addAccounts`
loop never overwrites an existing binding; and `changeHdPath` (ending the
path lifetime) clears the cache entirely. -/
theorem claim8_cache_at_most_once (e : HDEnv) (s : HDState) (i : Nat)
    (p' : String) :
    (∀ ent, alookup i s.index2wallet = some ent →
      addressFromIndex e s i = .ok (ent, s, 0)) ∧
    (∀ sd p, alookup i s.index2wallet = none → s.root = some (sd, p) →
      addressFromIndex e s i =
        .ok ((cAddr e s.addressType sd p i, cWallet e sd p i),
             { s with index2wallet :=
                 cEntry e s.addressType sd p i :: s.index2wallet }, 1) ∧
      addressFromIndex e
          { s with index2wallet :=
              cEntry e s.addressType sd p i :: s.index2wallet } i =
        .ok ((cAddr e s.addressType sd p i, cWallet e sd p i),
             { s with index2wallet :=
                 cEntry e s.addressType sd p i :: s.index2wallet }, 0)) ∧
    (∀ n r, addAccounts e s n = .ok r →
      ∀ ent, alookup i s.index2wallet = some ent →
        alookup i r.2.index2wallet = some ent) ∧
    (changeHdPath s p').index2wallet = [] := by
  refine ⟨?_, ?_, ?_, rfl⟩
  · intro ent h
    unfold addressFromIndex
    rw [h]
  · intro sd p hl hr
    constructor
    · unfold addressFromIndex
      rw [hl, hr]
      simp [cEntry, cAddr, cWallet]
    · unfold addressFromIndex
      simp [alookup, cEntry]
  · intro n r hok ent hent
    unfold addAccounts at hok
    exact go_cache_preserved e n _ s [] r hok i ent hent

/-- C8 (witness): the first lookup of index 1 on a fresh-from-seed instance
derives once and stores; the second lookup returns the stored entry with
zero derivations. -/
theorem claim8_witness :
    addressFromIndex eInj (fromSeed eInj freshState [1]) 1 =
      .ok ((cAddr eInj none [1] hdPathString 1, cWallet eInj [1] hdPathString 1),
           { fromSeed eInj freshState [1] with
               index2wallet := [cEntry eInj none [1] hdPathString 1] }, 1) ∧
    addressFromIndex eInj
        { fromSeed eInj freshState [1] with
            index2wallet := [cEntry eInj none [1] hdPathString 1] } 1 =
      .ok ((cAddr eInj none [1] hdPathString 1, cWallet eInj [1] hdPathString 1),
           { fromSeed eInj freshState [1] with
               index2wallet := [cEntry eInj none [1] hdPathString 1] }, 0) :=
  (claim8_cache_at_most_once eInj (fromSeed eInj freshState [1]) 1 "m").2.1
    [1] hdPathString rfl rfl

/-! ## Claim C2 — batch signing atomicity (corrected) -/

/-- `psbt.signInput` with an in-range index succeeds, preserves the number
of inputs and every finalization flag (it only appends a signature). -/
theorem signInput_preserves {psbt : Psbt} {index : Nat} (priv : Nat)
    (h : index < psbt.length) (hfin : ∀ q ∈ psbt, q.finalized = false) :
    ∃ psbt1, signInput psbt index priv = some psbt1 ∧
      psbt1.length = psbt.length ∧ (∀ q ∈ psbt1, q.finalized = false) := by
  refine ⟨_, by unfold signInput; rw [if_pos h], by simp, ?_⟩
  intro q hq
  rcases List.mem_or_eq_of_mem_set hq with hq | hq
  · exact hfin q hq
  · subst hq
    show (psbt.getD index {}).finalized = false
    rw [List.getD_eq_getElem psbt {} h]
    exact hfin _ (psbt.getElem_mem h)

/-- C2 (amended): if at least one descriptor's public key matches no
registered wallet (and every descriptor index is in range), `signPsbt`
raises the account-not-found error and no input of the transaction is
finalized (finalization runs only after the whole loop).  The inputs
designated by descriptors *before* the first unresolved one, however, have
already been signed when the error is raised — the transaction can be left
partially signed, though never partially finalized (see the
counterexample). -/
theorem claim2_no_finalization_on_error (s : HDState) :
    ∀ (inputs : List ToSignInput) (psbt : Psbt),
      (∀ inp ∈ inputs, inp.index < psbt.length) →
      (∀ q ∈ psbt, q.finalized = false) →
      (∃ inp ∈ inputs, findAccountByPk s inp.publicKey = none) →
      (signPsbt s psbt inputs).2 = some .accountNotFoundByPk ∧
      (∀ q ∈ (signPsbt s psbt inputs).1, q.finalized = false) := by
  intro inputs
  induction inputs with
  | nil =>
    intro psbt hidx hfin hbad
    obtain ⟨inp, hmem, -⟩ := hbad
    cases hmem
  | cons inp rest ih =>
    intro psbt hidx hfin hbad
    cases hfa : findAccountByPk s inp.publicKey with
    | none =>
      constructor
      · simp [signPsbt, signPsbtGo, hfa]
      · intro q hq
        apply hfin
        simpa [signPsbt, signPsbtGo, hfa] using hq
    | some acc =>
      have hin : inp.index < psbt.length := hidx inp (List.mem_cons_self _ _)
      obtain ⟨psbt1, hsig, hlen, hfin1⟩ := signInput_preserves acc.priv hin hfin
      have hbad' : ∃ i ∈ rest, findAccountByPk s i.publicKey = none := by
        rcases hbad with ⟨i, hi, hnone⟩
        rcases List.mem_cons.mp hi with rfl | hi
        · rw [hfa] at hnone
          cases hnone
        · exact ⟨i, hi, hnone⟩
      have hidx' : ∀ i ∈ rest, i.index < psbt1.length := by
        intro i hi
        rw [hlen]
        exact hidx i (List.mem_cons_of_mem _ hi)
      have hres := ih psbt1 hidx' hfin1 hbad'
      have hstep : signPsbt s psbt (inp :: rest) = signPsbtGo s psbt1 rest := by
        simp [signPsbt, signPsbtGo, hfa, hsig]
      rw [hstep]
      exact hres

/-- C2 (witness for the amended claim): one registered wallet, descriptor 0
resolves, descriptor 1 does not; the error is raised and both inputs end
unfinalized. -/
theorem claim2_witness :
    (signPsbt (withAccts eInj (fromSeed eInj freshState [1]) [1] hdPathString 1)
        [⟨[], false⟩, ⟨[], false⟩] [⟨0, 1⟩, ⟨1, 999⟩]).2 =
      some .accountNotFoundByPk ∧
    (∀ q ∈ (signPsbt (withAccts eInj (fromSeed eInj freshState [1]) [1] hdPathString 1)
        [⟨[], false⟩, ⟨[], false⟩] [⟨0, 1⟩, ⟨1, 999⟩]).1, q.finalized = false) :=
  claim2_no_finalization_on_error
    (withAccts eInj (fromSeed eInj freshState [1]) [1] hdPathString 1)
    [⟨0, 1⟩, ⟨1, 999⟩] [⟨[], false⟩, ⟨[], false⟩]
    (by decide) (by decide) ⟨⟨1, 999⟩, by decide, by decide⟩

/-- C2 (counterexample): with one registered wallet (key-pair 1), signing
descriptors `[{index 0, pk 1}, {index 1, pk 999}]` aborts on the second
descriptor with the account-not-found error — but input 0 has *already been
signed*: the final transaction differs from the initial one, refuting "the
transaction's input state is as it was before the call".  (No input is
finalized, and the registry is reachable: the state is the result of
`addAccounts(1)` from a fresh seed instance.) -/
theorem claim2_counterexample :
    addAccounts eInj (fromSeed eInj freshState [1]) 1 =
      .ok ([String.mk (List.replicate 1 'a')],
           withAccts eInj (fromSeed eInj freshState [1]) [1] hdPathString 1) ∧
    signPsbt (withAccts eInj (fromSeed eInj freshState [1]) [1] hdPathString 1)
        [⟨[], false⟩, ⟨[], false⟩] [⟨0, 1⟩, ⟨1, 999⟩] =
      ([⟨[1], false⟩, ⟨[], false⟩], some .accountNotFoundByPk) ∧
    ([⟨[1], false⟩, ⟨[], false⟩] : Psbt) ≠ [⟨[], false⟩, ⟨[], false⟩] := by
  have h := addAccounts_canon eInj (fromSeed eInj freshState [1]) [1]
    hdPathString rfl 0 1 (by omega)
  rw [withAccts_zero eInj (fromSeed eInj freshState [1]) [1] hdPathString rfl rfl] at h
  rw [h]
  refine ⟨?_, by decide, by decide⟩
  simp only [Except.ok.injEq, Prod.mk.injEq]
  exact ⟨by decide, by decide⟩

/-! ## Claims C4, C9 — serialization round trip and instance deserialize -/

/-- The static deserializer on a valid persisted state `{k ≥ 1, seed, aT}`
rebuilds the canonical instance: fresh root from the seed (default path),
persisted address type, and the registry re-populated with indices
`1..k`. -/
theorem deserializeStatic_canon (e : HDEnv) (sd : List Nat) (aT : Option Nat)
    (k : Nat) (hsd : sd ≠ []) (hk : 1 ≤ k) :
    deserializeStatic e { numberOfAccounts := some k, seed := sd, addressType := aT } =
      .ok (withAccts e { fromSeedStatic e sd with addressType := aT } sd
            hdPathString k) := by
  have hb0 : withAccts e { fromSeedStatic e sd with addressType := aT } sd
      hdPathString 0 = { fromSeedStatic e sd with addressType := aT } :=
    withAccts_zero _ _ _ _ rfl rfl
  have hcanon := addAccounts_canon e
    { fromSeedStatic e sd with addressType := aT } sd hdPathString rfl 0 k hk
  rw [hb0] at hcanon
  simp only [Nat.zero_add] at hcanon
  simp only [deserializeStatic]
  rw [if_neg hsd]
  rw [if_neg (by omega : ¬(k = 0))]
  rw [hcanon]
  rfl

/-- C4 (amended): the serialize/deserialize round trip restores
`getAccounts()` exactly — in fact the whole canonical state — for a root
instance with k ≥ 1 accounts *whose current derivation path is the default*
(the path is not persisted: `serialize` stores only the account count, the
seed and the address type, so instances whose path was changed are not
restored faithfully, see the counterexample). -/
theorem claim4_roundtrip (e : HDEnv) (sd : List Nat) (aT : Option Nat)
    (k : Nat) (hsd : sd ≠ []) (hk : 1 ≤ k) :
    serialize (withAccts e { fromSeedStatic e sd with addressType := aT } sd
        hdPathString k) =
      .ok { numberOfAccounts := some k, seed := sd, addressType := aT } ∧
    deserializeStatic e
        { numberOfAccounts := some k, seed := sd, addressType := aT } =
      .ok (withAccts e { fromSeedStatic e sd with addressType := aT } sd
            hdPathString k) ∧
    (∀ y, deserializeStatic e
        { numberOfAccounts := some k, seed := sd, addressType := aT } = .ok y →
      getAccounts e y =
        getAccounts e (withAccts e
          { fromSeedStatic e sd with addressType := aT } sd hdPathString k)) := by
  have hdes := deserializeStatic_canon e sd aT k hsd hk
  refine ⟨?_, hdes, ?_⟩
  · unfold serialize
    rw [if_neg (by
      simp only [ne_eq, not_not]
      rfl)]
    rw [show (withAccts e { fromSeedStatic e sd with addressType := aT } sd
        hdPathString k).seed = some sd from rfl]
    simp [withAccts]
  · intro y hy
    rw [hdes] at hy
    simp only [Except.ok.injEq] at hy
    rw [hy]

/-- C4 (witness for the amended claim): seed `[1]`, default path, one
account, in the collision-free environment. -/
theorem claim4_witness :
    serialize (withAccts eInj { fromSeedStatic eInj [1] with addressType := none }
        [1] hdPathString 1) =
      .ok { numberOfAccounts := some 1, seed := [1], addressType := none } ∧
    deserializeStatic eInj
        { numberOfAccounts := some 1, seed := [1], addressType := none } =
      .ok (withAccts eInj { fromSeedStatic eInj [1] with addressType := none }
            [1] hdPathString 1) ∧
    (∀ y, deserializeStatic eInj
        { numberOfAccounts := some 1, seed := [1], addressType := none } = .ok y →
      getAccounts eInj y =
        getAccounts eInj (withAccts eInj
          { fromSeedStatic eInj [1] with addressType := none } [1] hdPathString 1)) :=
  claim4_roundtrip eInj [1] none 1 (by decide) (by omega)

/-- C4 (counterexample): the claim quantifies over *every* root instance,
but the derivation path is not part of the persisted state.  Take the
instance built from seed `[1]` whose path was changed to `"m"` before
`addAccounts(1)` (still a root instance: `childIndex = 0`, seed set): the
round trip rebuilds the registry along the *default* path, and in the
path-sensitive environment `ePath` the resulting `getAccounts()` differs
from the original. -/
theorem claim4_counterexample :
    addAccounts ePath (changeHdPath (fromSeed ePath freshState [1]) "m") 1 =
      .ok ([String.mk (List.replicate 2 'a')],
           withAccts ePath (changeHdPath (fromSeed ePath freshState [1]) "m")
             [1] "m" 1) ∧
    serialize (withAccts ePath (changeHdPath (fromSeed ePath freshState [1]) "m")
        [1] "m" 1) =
      .ok { numberOfAccounts := some 1, seed := [1], addressType := none } ∧
    deserializeStatic ePath
        { numberOfAccounts := some 1, seed := [1], addressType := none } =
      .ok (withAccts ePath { fromSeedStatic ePath [1] with addressType := none }
            [1] hdPathString 1) ∧
    getAccounts ePath (withAccts ePath
        { fromSeedStatic ePath [1] with addressType := none } [1] hdPathString 1) ≠
      getAccounts ePath (withAccts ePath
        (changeHdPath (fromSeed ePath freshState [1]) "m") [1] "m" 1) := by
  have h := addAccounts_canon ePath
    (changeHdPath (fromSeed ePath freshState [1]) "m") [1] "m" rfl 0 1 (by omega)
  rw [withAccts_zero ePath (changeHdPath (fromSeed ePath freshState [1]) "m")
    [1] "m" rfl rfl] at h
  rw [h]
  refine ⟨?_, by decide, deserializeStatic_canon ePath [1] none 1 (by decide) (by omega), by decide⟩
  simp only [Except.ok.injEq, Prod.mk.injEq]
  exact ⟨by decide, by decide⟩

/-- C9: the *instance-level* `deserialize` discards the reconstructed
accounts and the persisted address type: for any valid persisted state
`{numberOfAccounts := k ≥ 1, seed, addressType}` it returns
`fromOptions(seed)` applied to the receiver — for a fresh receiver an
instance with zero registered accounts, the default (unset) address type,
and only the seed taken from the persisted state (the result does not
depend on `k` or on the persisted `addressType`). -/
theorem claim9_instance_deserialize (e : HDEnv) (sd : List Nat) (k : Nat)
    (aT : Option Nat) (hsd : sd ≠ []) (hk : 1 ≤ k) :
    deserializeInstance e freshState
        { numberOfAccounts := some k, seed := sd, addressType := aT } =
      .ok (fromOptions e freshState sd) ∧
    (fromOptions e freshState sd).wallets = [] ∧
    (fromOptions e freshState sd).addressType = none ∧
    (fromOptions e freshState sd).seed = some sd ∧
    (fromOptions e freshState sd).childIndex = 0 := by
  refine ⟨?_, rfl, rfl, rfl, rfl⟩
  unfold deserializeInstance
  rw [deserializeStatic_canon e sd aT k hsd hk]
  rfl

/-- C9 (witness): persisted state with two accounts and a non-default
address type; the reconstructed instance ignores both. -/
theorem claim9_witness :
    deserializeInstance eInj freshState
        { numberOfAccounts := some 2, seed := [1], addressType := some 5 } =
      .ok (fromOptions eInj freshState [1]) ∧
    (fromOptions eInj freshState [1]).wallets = [] ∧
    (fromOptions eInj freshState [1]).addressType = none ∧
    (fromOptions eInj freshState [1]).seed = some [1] ∧
    (fromOptions eInj freshState [1]).childIndex = 0 :=
  claim9_instance_deserialize eInj [1] 2 (some 5) (by decide) (by omega)

/-! ## Claim C5 — signing resolution (corrected) -/

/-- C5 (counterexample): the root address is the first element of
`getAccounts()`, yet `signMessage` searches only the registered wallets
(`this.wallets`), which never contain the root key-pair.  On a fresh
instance from seed `[1]` the root address is in `getAccounts()`, but
signing with it throws — and the thrown error is the "Must specify
publicKey." error (from the `?? ""` fallback), not the account-not-found
error the claim names.  So "for every address present in getAccounts() it
produces a signature" is false. -/
theorem claim5_counterexample :
    getAddress eInj (fromSeed eInj freshState [1])
        (fromSeed eInj freshState [1]).publicKey ∈
      getAccounts eInj (fromSeed eInj freshState [1]) ∧
    signMessage eInj (fromSeed eInj freshState [1])
        (getAddress eInj (fromSeed eInj freshState [1])
          (fromSeed eInj freshState [1]).publicKey) "hello" =
      .error .mustSpecifyPublicKey := by
  constructor
  · decide
  · decide

/-- C5 (amended): `signMessage(address, text)` throws the missing-publicKey
error ("Must specify publicKey.", produced by the `?? ""` fallback — not
the account-not-found error) for every address that matches no *registered*
wallet; this includes the root address, which is present in `getAccounts()`
but not in `this.wallets`.  For an address that does resolve to a
registered wallet the produced signature verifies, provided the wallets
hold consistent key-pairs (`pub = pubOf priv`, true of every wallet the
code constructs) and bitcore's address encoding agrees with the instance's
`getAddress` (the compatibility the code relies on for
`verifyMessage`). -/
theorem claim5_signMessage_resolution (e : HDEnv) (s : HDState)
    (address text : String)
    (hcompat : ∀ pub, e.bitcoreAddr pub = e.addr s.addressType pub)
    (hwf : ∀ w ∈ s.wallets, w.pub = e.pubOf w.priv) :
    ((∀ w ∈ s.wallets, getAddress e s w.pub ≠ address) →
      signMessage e s address text = .error .mustSpecifyPublicKey) ∧
    (∀ w, s.wallets.find? (fun f => getAddress e s f.pub = address) = some w →
      (∀ sig, signMessage e s address text = .ok sig →
        verifyMessage e address text sig = true) ∧
      (∀ er, signMessage e s address text ≠ .error er)) := by
  constructor
  · intro hna
    have hn : s.wallets.find? (fun f => getAddress e s f.pub = address) = none := by
      rw [List.find?_eq_none]
      intro w hw
      simpa using hna w hw
    simp [signMessage, hn]
  · intro w hfind
    have hwmem : w ∈ s.wallets := List.mem_of_find?_eq_some hfind
    have hwaddr : getAddress e s w.pub = address := by
      have := List.find?_some hfind
      simpa using this
    cases hfind2 : s.wallets.find? (fun f => f.pub = w.pub) with
    | none =>
      exfalso
      have := List.find?_eq_none.mp hfind2 w hwmem
      simp at this
    | some w2 =>
      have hw2mem : w2 ∈ s.wallets := List.mem_of_find?_eq_some hfind2
      have hw2pub : w2.pub = w.pub := by
        have := List.find?_some hfind2
        simpa using this
      have hsig : signMessage e s address text = .ok ⟨w2.priv, text⟩ := by
        unfold signMessage
        rw [hfind]
        simp only [Option.map_some']
        rw [hfind2]
      constructor
      · intro sig hok
        rw [hsig] at hok
        simp only [Except.ok.injEq] at hok
        subst hok
        have hpub : e.pubOf w2.priv = w2.pub := (hwf w2 hw2mem).symm
        simp only [verifyMessage, hpub, hw2pub, hcompat]
        simp only [getAddress] at hwaddr
        simp [hwaddr]
      · intro er her
        rw [hsig] at her
        cases her

/-- C5 (witness): one registered account (address "a").  Signing with an
unmatched address "z" throws the missing-publicKey error; signing with "a"
succeeds and the signature verifies. -/
theorem claim5_witness :
    signMessage eInj (withAccts eInj (fromSeed eInj freshState [1]) [1] hdPathString 1)
        (String.mk ['z']) "t" = .error .mustSpecifyPublicKey ∧
    ((∀ sig, signMessage eInj
          (withAccts eInj (fromSeed eInj freshState [1]) [1] hdPathString 1)
          (String.mk ['a']) "t" = .ok sig →
        verifyMessage eInj (String.mk ['a']) "t" sig = true) ∧
      (∀ er, signMessage eInj
          (withAccts eInj (fromSeed eInj freshState [1]) [1] hdPathString 1)
          (String.mk ['a']) "t" ≠ .error er)) :=
  ⟨(claim5_signMessage_resolution eInj
      (withAccts eInj (fromSeed eInj freshState [1]) [1] hdPathString 1)
      (String.mk ['z']) "t" (fun _ => rfl) (by decide)).1 (by decide),
   (claim5_signMessage_resolution eInj
      (withAccts eInj (fromSeed eInj freshState [1]) [1] hdPathString 1)
      (String.mk ['a']) "t" (fun _ => rfl) (by decide)).2
      ⟨1, 1, 1⟩ (by decide)⟩
